import Mathlib

/-!
# Verification of the nook streaming segmentation / dispatch / merge pipeline

Shallow embedding of the core of `nook_engine` (files
`nook_engine/audio_processor.py` and `nook_engine/diarizer.py`) and proofs
about it.  Python strings are embedded as `List Char`, Python floats that
carry times/probabilities as `ℚ`, PCM frames as opaque `ℕ` identifiers
(their byte content never influences the control flow under scrutiny; the
voice-activity classification verdict for a frame is supplied as an input).

The embedding follows the source line by line:
* `stepFrame`     — the per-20ms-frame body of `callback` in
  `start_low_latency_processing` (audio_processor.py, lines 420–457);
* `emitSegment`   — `_emit_segment` (lines 363–397), reduced to the queue
  `put` of the segment descriptor (WAV writing is I/O only);
* `submitQueue`   — `queue.Queue.put` on the unbounded `_segment_queue`
  created in `AudioProcessor.__init__` (line 82);
* `noiseFilter`   — the transcription-segment filter inside `worker`
  (lines 487–508);
* `workerStep`    — one iteration of `worker` (lines 460–556), with the
  external transcriber/diarizer results passed in as values;
* `createContinuousTranscription` — `_create_continuous_transcription`
  (diarizer.py, lines 586–643);
* `simpleLoop` / `diarizeSimple` — `_diarize_simple` (lines 379–427).
-/

/-! ## Python string primitives -/

/-- Python strings, embedded as their character lists. -/
abbrev PyStr := List Char

/-- The ASCII whitespace characters recognised by Python's `str.strip()` /
`str.split()` (space, tab, newline, carriage return, vertical tab, form
feed). -/
def pyIsSpace (c : Char) : Bool :=
  c == ' ' || c == '\t' || c == '\n' || c == '\r' ||
  c == Char.ofNat 11 || c == Char.ofNat 12

/-- Remove leading characters satisfying `p` (Python `lstrip`). -/
def stripLeading (p : Char → Bool) (s : PyStr) : PyStr :=
  s.dropWhile p

/-- Remove trailing characters satisfying `p` (Python `rstrip`). -/
def stripTrailing (p : Char → Bool) (s : PyStr) : PyStr :=
  (s.reverse.dropWhile p).reverse

/-- Python `str.strip(chars)`: drop characters satisfying `p` from both
ends. -/
def pyStrip (p : Char → Bool) (s : PyStr) : PyStr :=
  stripTrailing p (stripLeading p s)

/-- Python `str.strip()` with no argument: strip whitespace. -/
def pyStripWs (s : PyStr) : PyStr :=
  pyStrip pyIsSpace s

/-- Python `str.lower()` (ASCII case folding suffices for every string the
code compares). -/
def pyLower (s : PyStr) : PyStr :=
  s.map Char.toLower

/-- Python `' '.join(xs)`. -/
def joinSpace : List PyStr → PyStr
  | [] => []
  | [x] => x
  | x :: y :: ys => x ++ ' ' :: joinSpace (y :: ys)

/-- Helper for `pyWords`: `acc` holds the characters of the word currently
being read, in reverse. -/
def wordsAux : PyStr → PyStr → List PyStr
  | acc, [] => if acc.isEmpty then [] else [acc.reverse]
  | acc, c :: cs =>
    if pyIsSpace c then
      if acc.isEmpty then wordsAux [] cs else acc.reverse :: wordsAux [] cs
    else
      wordsAux (c :: acc) cs

/-- Python `str.split()` with no argument: the maximal whitespace-free words
of a string, in order. -/
def pyWords (s : PyStr) : List PyStr :=
  wordsAux [] s

/-! ## The Segmenter (`callback` in `start_low_latency_processing`) -/

/-- The segmentation tunables stored in the `state` dict
(audio_processor.py, lines 342–355).  In the source all four frame counts
are forced `≥ 1` by `max(1, …)` and `frame_samples = int(sample_rate*0.02)`. -/
structure SegParams where
  frame_samples : ℕ
  partial_interval : ℚ
  min_speech_frames : ℕ
  post_silence_frames : ℕ
  max_segment_frames : ℕ
deriving DecidableEq

/-- The mutable segmenter state (the `state` dict plus `in_speech`,
`speech_frames`, `speech_start_sample`, `last_emit_time`, `samples_seen`,
`silence_counter`). -/
structure SegState where
  in_speech : Bool
  speech_frames : List ℕ
  speech_start_sample : ℕ
  last_emit_time : ℚ
  samples_seen : ℕ
  silence_counter : ℕ
deriving DecidableEq

/-- The segmenter's starting state at stream start. -/
def initSegState : SegState :=
  { in_speech := false, speech_frames := [], speech_start_sample := 0,
    last_emit_time := 0, samples_seen := 0, silence_counter := 0 }

/-- What `_emit_segment` hands to the dispatch queue: the finality flag, the
buffered frames, and the absolute start sample. -/
structure Emission where
  is_final : Bool
  frames : List ℕ
  start_sample : ℕ
deriving DecidableEq

/-- `_emit_segment(is_final, pcm_frames, start_sample)` (lines 363–397):
an empty frame list is dropped (`if not pcm_frames: return`); otherwise one
descriptor is enqueued. -/
def emitSegment (fin : Bool) (frames : List ℕ) (start_sample : ℕ) : List Emission :=
  if frames = [] then [] else [⟨fin, frames, start_sample⟩]

/-- `int(0.6 / 0.02)` from line 435: the partial-emission context window, in
20 ms frames (the float quotient is exactly `30.0`). -/
def partialWindowFrames : ℕ := 30

/-- One iteration of the `for frame in chunks` loop of `callback`
(lines 420–457), for a frame whose classifier verdict is `isSpeech`,
processed at wall-clock time `now` (both calls to `time.time()` inside one
iteration are identified with `now`).  Returns the updated state and the
emissions of this frame, in order. -/
def stepFrame (p : SegParams) (st : SegState) (f : ℕ) (isSpeech : Bool)
    (now : ℚ) : SegState × List Emission :=
  let next := fun (st' : SegState) (ems : List Emission) =>
    ({ st' with samples_seen := st'.samples_seen + p.frame_samples }, ems)
  if isSpeech then
    let st1 :=
      if st.in_speech then st
      else
        { st with in_speech := true, speech_frames := [],
                  speech_start_sample := st.samples_seen,
                  silence_counter := 0, last_emit_time := now }
    let st2 := { st1 with speech_frames := st1.speech_frames ++ [f],
                          silence_counter := 0 }
    let startIndex := st2.speech_frames.length - partialWindowFrames
    let stepPartial :=
      if now - st2.last_emit_time ≥ p.partial_interval then
        ({ st2 with last_emit_time := now },
         emitSegment false (st2.speech_frames.drop startIndex)
           (st2.speech_start_sample + startIndex * p.frame_samples))
      else (st2, ([] : List Emission))
    let st3 := stepPartial.1
    if st3.speech_frames.length ≥ p.max_segment_frames then
      next { st3 with in_speech := false, speech_frames := [],
                      silence_counter := 0 }
        (stepPartial.2 ++
          emitSegment true st3.speech_frames st3.speech_start_sample)
    else
      next st3 stepPartial.2
  else
    if st.in_speech then
      let st1 := { st with silence_counter := st.silence_counter + 1 }
      if st1.silence_counter ≥ p.post_silence_frames ∧
          st1.speech_frames.length ≥ p.min_speech_frames then
        next { st1 with in_speech := false, speech_frames := [],
                        silence_counter := 0 }
          (emitSegment true st1.speech_frames st1.speech_start_sample)
      else
        next st1 []
    else
      next st []

/-- One classified input frame: its identifier, the classifier verdict, and
the wall-clock time at which it is processed. -/
structure FrameIn where
  frame : ℕ
  speech : Bool
  now : ℚ
deriving DecidableEq

/-- Run the segmenter over a frame sequence, collecting all emissions in
stream order. -/
def runFrames (p : SegParams) : SegState → List FrameIn → SegState × List Emission
  | st, [] => (st, [])
  | st, i :: rest =>
    let s1 := stepFrame p st i.frame i.speech i.now
    let s2 := runFrames p s1.1 rest
    (s2.1, s1.2 ++ s2.2)

/-! ### The classifier call as it appears in the source

Line 421 of `callback` is the bare call
`is_speech = vad.is_speech(frame, self.sample_rate)` — there is no
`try`/`except` anywhere inside `callback`, so an exception from the
classifier aborts the per-frame loop and escapes the callback.  We embed the
fallible classifier verdict as `Except Unit Bool` and thread the exception
exactly as Python does: it aborts processing of the remaining frames. -/

/-- One input frame together with its fallible classifier verdict. -/
structure FrameInE where
  frame : ℕ
  speech : Except Unit Bool
  now : ℚ

/-- A frame whose classification succeeded. -/
def liftOk (i : FrameIn) : FrameInE :=
  ⟨i.frame, .ok i.speech, i.now⟩

/-- Run the segmenter over fallibly-classified frames.  A classifier
exception propagates (there is no handler in `callback`): the remaining
frames of the chunk are not processed and the partial state and emissions
are lost with the raised exception. -/
def runFramesE (p : SegParams) : SegState → List FrameInE → Except Unit (SegState × List Emission)
  | st, [] => .ok (st, [])
  | st, i :: rest =>
    match i.speech with
    | .error e => .error e
    | .ok b =>
      let s1 := stepFrame p st i.frame b i.now
      match runFramesE p s1.1 rest with
      | .error e => .error e
      | .ok s2 => .ok (s2.1, s1.2 ++ s2.2)

/-! ## The DispatchQueue (`self._segment_queue`)

`AudioProcessor.__init__` (line 82) creates
`self._segment_queue = queue.Queue()` — an **unbounded** FIFO.
`_emit_segment` submits with a plain `self._segment_queue.put(task)`
(line 387): `put` on an unbounded `queue.Queue` never blocks and never
drops anything.  The pending content is the item list in FIFO order. -/

/-- A queued dispatch item: its `sequence_id` and the `is_final` flag
(the other task fields are irrelevant to capacity behaviour). -/
structure QItem where
  id : ℕ
  is_final : Bool
deriving DecidableEq

/-- `queue.Queue.put` on the unbounded queue: append at the tail. -/
def submitQueue (q : List QItem) (t : QItem) : List QItem :=
  q ++ [t]

/-- Submit a sequence of items in order. -/
def submitAll (q : List QItem) (ts : List QItem) : List QItem :=
  ts.foldl submitQueue q

/-- The number of pending partial (non-final) items. -/
def countPartials (q : List QItem) : ℕ :=
  (q.filter (fun t => !t.is_final)).length

/-- A burst of `n` partial emissions of one lineage, ids `0, …, n-1`. -/
def partialBurst (n : ℕ) : List QItem :=
  (List.range n).map (fun i => ⟨i, false⟩)

/-! ## The Worker (`worker` inside `start_low_latency_processing`) -/

/-- A transcription segment as returned by
`engine.transcriber.transcribe(file, "json")`: its raw text,
`no_speech_prob` (default `0.0` is folded in), and optional `start`/`end`
(the worker substitutes the task's bounds when absent). -/
structure TSeg where
  text : PyStr
  no_speech_prob : ℚ
  startT : Option ℚ
  endT : Option ℚ
deriving DecidableEq

/-- A speaker-labelled output segment (an element of the `segments` list the
worker builds; also the shape of a diarizer-result segment). -/
structure OutSeg where
  startT : ℚ
  endT : ℚ
  text : PyStr
  speaker : String
deriving DecidableEq

/-- The filler tokens dropped by the worker's noise filter (line 494). -/
def fillerTokens : List PyStr :=
  ["ok".data, "okay".data, "yeah".data, "uh".data, "um".data]

/-- Characters stripped by `text.lower().strip(" .!")` (line 493). -/
def fillerStripChar (c : Char) : Bool :=
  c == ' ' || c == '.' || c == '!'

/-- The noise filter of `worker` (lines 487–508), as a loop over the raw
transcription segments carrying the list of segments retained so far
(`segments` in the source; the duplicate check reads `segments[-1]`).
`task_start`/`task_end` are the defaults for missing timestamps. -/
def noiseFilter (task_start task_end : ℚ) : List TSeg → List OutSeg → List OutSeg
  | [], acc => acc
  | s :: rest, acc =>
    let text := pyStripWs s.text
    if text = [] then noiseFilter task_start task_end rest acc
    else if pyStrip fillerStripChar (pyLower text) ∈ fillerTokens then
      noiseFilter task_start task_end rest acc
    else if s.no_speech_prob > 6/10 then
      noiseFilter task_start task_end rest acc
    else if (match acc.getLast? with
             | some prev =>
               (pyLower prev.text).isPrefixOf (pyLower text) ||
               (pyLower text).isSuffixOf (pyLower prev.text)
             | none => false) then
      noiseFilter task_start task_end rest acc
    else
      noiseFilter task_start task_end rest
        (acc ++ [⟨s.startT.getD task_start, s.endT.getD task_end, text, "USER"⟩])

/-- A dispatch task as read back by the worker (the queue dict of
`_emit_segment` minus the I/O-only fields). -/
structure WTask where
  id : ℕ
  startT : ℚ
  endT : ℚ
  is_final : Bool
  enable_diarization : Bool
deriving DecidableEq

/-- The joined update the worker publishes (the `joined` dict, line 526). -/
structure JoinedUpdate where
  id : ℕ
  startT : ℚ
  endT : ℚ
  text : PyStr
  speaker : String
  is_final : Bool
deriving DecidableEq

/-- One iteration of the `worker` loop (lines 460–556) on a task, with the
external calls' outcomes passed in as values:

* `tres` is the transcriber outcome — `.error` for a raised exception
  (caught by the `except` at line 553: logged, nothing published),
  `.ok none` for a falsy result (`if not transcription: continue`),
  `.ok (some tsegs)` for segments;
* `dres` is the outcome of `engine.diarizer.diarize` — that method catches
  its own exceptions (diarizer.py lines 242–244) and returns `None`, so the
  worker observes `none` on any diarizer failure and a segment list
  otherwise.

Returns the published `joined` update, or `none` when the task produces no
output.  JSONL/JSON file writing is I/O and is not modelled. -/
def workerStep (tres : Except Unit (Option (List TSeg)))
    (dres : Option (List OutSeg)) (task : WTask) : Option JoinedUpdate :=
  match tres with
  | .error _ => none
  | .ok none => none
  | .ok (some tsegs) =>
    let segments : List OutSeg :=
      if task.enable_diarization && task.is_final then dres.getD []
      else noiseFilter task.startT task.endT tsegs []
    let segments2 : List OutSeg :=
      if segments = [] then
        tsegs.filterMap (fun s =>
          if s.text = [] then none
          else some ⟨s.startT.getD task.startT, s.endT.getD task.endT,
                     pyStripWs s.text, "SPEAKER_00"⟩)
      else segments
    match segments2 with
    | [] => none
    | s0 :: ss =>
      some ⟨task.id, s0.startT, (List.getLastD ss s0).endT,
            pyStripWs (joinSpace ((s0 :: ss).map (fun s => pyStripWs s.text))),
            s0.speaker, task.is_final⟩

/-- The worker loop over a whole sequence of tasks (each with its backend
outcomes): every task is taken off the queue exactly once, and its
published update (if any) is appended. -/
def runWorker : List (Except Unit (Option (List TSeg)) × Option (List OutSeg) × WTask) → List JoinedUpdate
  | [] => []
  | (t, d, task) :: rest => (workerStep t d task).toList ++ runWorker rest

/-! ## The ContinuityMerger (`_create_continuous_transcription`) -/

/-- An aligned, speaker-labelled, timed text segment (the elements of
`aligned_segments`). -/
structure ASeg where
  speaker : String
  startT : ℚ
  endT : ℚ
  text : PyStr
deriving DecidableEq

/-- A merged continuous turn (the dicts appended to
`continuous_segments`; the `confidence` field is the constant `0.0` in the
source and is omitted). -/
structure Turn where
  speaker : String
  startT : ℚ
  endT : ℚ
  text : PyStr
deriving DecidableEq

/-- The loop state of `_create_continuous_transcription`: the previous input
segment (`aligned_segments[i-1]`) and the open turn
(`current_speaker`, `current_text`, `current_start`, `current_end`). -/
structure MergeState where
  prev : ASeg
  cur_speaker : String
  cur_text : List PyStr
  cur_start : ℚ
  cur_end : ℚ
deriving DecidableEq

/-- Close the open turn: `' '.join(current_text).strip()` (line 623). -/
def flushTurn (st : MergeState) : Turn :=
  ⟨st.cur_speaker, st.cur_start, st.cur_end, pyStripWs (joinSpace st.cur_text)⟩

/-- One iteration of the merge loop (diarizer.py lines 599–631) for `i > 0`:
compute `is_interruption` from the previous segment and the gap, then either
merge into the open turn or close it and open a new one.  Returns the new
state and the turns closed by this step. -/
def mergeStep (gap : ℚ) (st : MergeState) (s : ASeg) : MergeState × List Turn :=
  let isInterruption :=
    s.speaker ≠ st.prev.speaker ∧ s.startT - st.prev.endT < gap ∧
      s.speaker ≠ st.cur_speaker
  if s.speaker = st.cur_speaker ∧ ¬ isInterruption then
    ({ st with prev := s, cur_text := st.cur_text ++ [s.text],
               cur_end := s.endT }, [])
  else
    (⟨s, s.speaker, [s.text], s.startT, s.endT⟩,
     if st.cur_text = [] then [] else [flushTurn st])

/-- The merge loop over the remaining segments, flushing the open turn at
the end (lines 633–641). -/
def mergeLoop (gap : ℚ) (st : MergeState) : List ASeg → List Turn
  | [] => if st.cur_text = [] then [] else [flushTurn st]
  | s :: rest =>
    let s1 := mergeStep gap st s
    s1.2 ++ mergeLoop gap s1.1 rest

/-- `_create_continuous_transcription(aligned_segments)` (lines 586–643).
The source initialises the open turn from `aligned_segments[0]` and then
iterates over the whole list; iteration `i = 0` necessarily takes the merge
branch (same speaker, no previous segment), which the first state below
already accounts for. -/
def createContinuousTranscription (gap : ℚ) : List ASeg → List Turn
  | [] => []
  | s0 :: rest =>
    mergeLoop gap ⟨s0, s0.speaker, [s0.text], s0.startT, s0.endT⟩ rest

/-! ## The simple heuristic diarizer (`_diarize_simple`) -/

/-- A raw transcription segment as `_diarize_simple` reads it
(`start`, `end`, `text`). -/
structure WSeg where
  startT : ℚ
  endT : ℚ
  text : PyStr
deriving DecidableEq

/-- Toggle between the two heuristic speaker labels (line 403). -/
def toggleSpeaker (s : String) : String :=
  if s = "SPEAKER_00" then "SPEAKER_01" else "SPEAKER_00"

/-- The segment loop of `_diarize_simple` (lines 393–410): skip segments
whose stripped text is empty (these update neither the speaker nor
`last_end`), toggle the current speaker when the gap to the last retained
segment's end strictly exceeds `gap`, and record the retained segment. -/
def simpleLoop (gap : ℚ) (cur : String) (last_end : Option ℚ) : List WSeg → List OutSeg
  | [] => []
  | seg :: rest =>
    let text := pyStripWs seg.text
    if text = [] then simpleLoop gap cur last_end rest
    else
      let cur2 :=
        match last_end with
        | some le => if seg.startT - le > gap then toggleSpeaker cur else cur
        | none => cur
      ⟨seg.startT, seg.endT, text, cur2⟩ :: simpleLoop gap cur2 (some seg.endT) rest

/-- `_diarize_simple` (lines 379–427), reduced to the `segments` list it
computes: `None` when the transcription has no segments, else the labelled
list starting from `SPEAKER_00` (the `speakers` / `total_duration` /
metadata fields of the returned dict are derived data and carry no further
logic). -/
def diarizeSimple (gap : ℚ) (ws : List WSeg) : Option (List OutSeg) :=
  if ws = [] then none
  else some (simpleLoop gap "SPEAKER_00" none ws)

/-! ## Helper lemmas -/

/-- Submitting a sequence appends it: nothing already pending is touched. -/
theorem submitAll_eq (q ts : List QItem) : submitAll q ts = q ++ ts := by
  induction ts generalizing q with
  | nil => simp [submitAll]
  | cons t ts ih =>
    show submitAll (submitQueue q t) ts = _
    rw [ih]
    simp [submitQueue]

/-- A burst of `n` partials contributes exactly `n` pending partials. -/
theorem countPartials_burst (n : ℕ) : countPartials (partialBurst n) = n := by
  induction n with
  | zero => rfl
  | succ m ih =>
    simp only [partialBurst, List.range_succ, List.map_append, List.map_cons,
      List.map_nil, countPartials, List.filter_append] at *
    simp [ih, List.length_append]

/-! ## C1 — dispatch queue capacity -/

/-- C1 (counterexample): the dispatch queue created at
`AudioProcessor.__init__` line 82 is `queue.Queue()` with no `maxsize`, so
no capacity bounds the number of pending partials: for every candidate
capacity `cap`, submitting a burst of `cap + 1` partials leaves `cap + 1`
partials pending, refuting "bounded by an internal capacity; when capacity
is exceeded the oldest pending partial item is dropped". -/
theorem dispatch_capacity_counterexample :
    ¬ ∃ cap : ℕ, ∀ n : ℕ, countPartials (submitAll [] (partialBurst n)) ≤ cap := by
  rintro ⟨cap, h⟩
  have hc := h (cap + 1)
  rw [submitAll_eq, List.nil_append, countPartials_burst] at hc
  omega

/-- C1 (amended): `submit` never blocks and never drops anything — the
queue is unbounded, every submission sequence leaves all submitted items
pending in FIFO order after whatever was already pending; in particular a
burst of 10 partials followed by 1 final retains all 10 partials and the
final stays pending until a worker takes it. -/
theorem dispatch_queue_unbounded_no_drop :
    (∀ q ts : List QItem, submitAll q ts = q ++ ts) ∧
    countPartials (submitAll [] (partialBurst 10 ++ [⟨10, true⟩])) = 10 ∧
    (⟨10, true⟩ : QItem) ∈ submitAll [] (partialBurst 10 ++ [⟨10, true⟩]) := by
  refine ⟨submitAll_eq, ?_, ?_⟩ <;> rw [submitAll_eq] <;> decide

/-! ## C7 — worker failure semantics -/

/-- C7 (counterexample): a SpeakerIdentifier failure does **not** discard
the utterance.  `SpeakerDiarizer.diarize` catches every exception
(diarizer.py lines 242–244) and returns `None`; the worker then finds
`segments == []` and takes the fallback at lines 511–519, synthesising
`SPEAKER_00`-labelled segments from the transcription and publishing the
joined update — here a final task whose transcription is `"hello"` is
published even though diarization failed. -/
theorem worker_diarizer_failure_counterexample :
    workerStep (.ok (some [⟨"hello".data, 0, some 0, some 1⟩])) none
        ⟨0, 0, 1, true, true⟩ =
      some ⟨0, 0, 1, "hello".data, "SPEAKER_00", true⟩ := by
  decide

/-- C7 (amended): a Transcriber failure for one utterance — a raised
exception (caught by the `except` at line 553) or a falsy result
(`if not transcription: continue`) — causes the worker to publish nothing
for that task, never retry it, and carry on with the remaining tasks
unchanged.  (A SpeakerIdentifier failure instead falls back to
transcription-derived `SPEAKER_00` segments; see the counterexample.) -/
theorem worker_transcriber_failure_drops :
    (∀ (u : Unit) (d : Option (List OutSeg)) (task : WTask),
        workerStep (.error u) d task = none) ∧
    (∀ (d : Option (List OutSeg)) (task : WTask),
        workerStep (.ok none) d task = none) ∧
    (∀ (u : Unit) (d : Option (List OutSeg)) (task : WTask)
        (rest : List (Except Unit (Option (List TSeg)) × Option (List OutSeg) × WTask)),
        runWorker ((.error u, d, task) :: rest) = runWorker rest) ∧
    (∀ (d : Option (List OutSeg)) (task : WTask)
        (rest : List (Except Unit (Option (List TSeg)) × Option (List OutSeg) × WTask)),
        runWorker ((.ok none, d, task) :: rest) = runWorker rest) := by
  refine ⟨fun u d task => rfl, fun d task => rfl, ?_, ?_⟩ <;>
    intros <;> simp [runWorker, workerStep]

/-! ## C8 — classifier errors -/

/-- C8 (counterexample): `callback` contains no `try`/`except` around
`vad.is_speech(frame, self.sample_rate)` (line 421), so a classifier error
is **not** treated as a non-speech classification: running the segmenter on
a single frame whose classification raises gives the propagated error, not
the result of classifying the frame as non-speech. -/
theorem classifier_error_counterexample :
    runFramesE ⟨320, 1, 15, 20, 400⟩ initSegState [⟨0, Except.error (), 0⟩] =
      Except.error () ∧
    runFramesE ⟨320, 1, 15, 20, 400⟩ initSegState [⟨0, Except.error (), 0⟩] ≠
      Except.ok (runFrames ⟨320, 1, 15, 20, 400⟩ initSegState [⟨0, false, 0⟩]) := by
  exact ⟨rfl, fun h => Except.noConfusion h⟩

/-- C8 (amended): a `VoiceActivityClassifier` error on a frame propagates
out of the per-frame loop — the remaining frames of the chunk are not
processed and no state update or emission survives — while a run in which
every classification succeeds behaves exactly like the pure segmenter. -/
theorem classifier_error_propagates :
    (∀ (p : SegParams) (st : SegState) (pre : List FrameIn) (f : ℕ) (u : Unit)
        (t : ℚ) (rest : List FrameInE),
        runFramesE p st (pre.map liftOk ++ ⟨f, .error u, t⟩ :: rest) = .error u) ∧
    (∀ (p : SegParams) (st : SegState) (ins : List FrameIn),
        runFramesE p st (ins.map liftOk) = .ok (runFrames p st ins)) := by
  have hok : ∀ (p : SegParams) (ins : List FrameIn) (st : SegState),
      runFramesE p st (ins.map liftOk) = .ok (runFrames p st ins) := by
    intro p ins
    induction ins with
    | nil => intro st; rfl
    | cons i rest ih =>
      intro st
      simp only [List.map_cons, runFramesE, runFrames, liftOk, ih]
  refine ⟨?_, fun p st ins => hok p ins st⟩
  intro p st pre
  induction pre generalizing st with
  | nil => intro f u t rest; rfl
  | cons i pre ih =>
    intro f u t rest
    simp only [List.map_cons, List.cons_append, runFramesE, liftOk, List.append_eq]
    rw [ih _ f u t rest]

/-! ## Segmenter step characterisations -/

/-- The silence branch of `callback` (lines 447–455), fully evaluated:
closing requires **both** the silence run and the minimum length; otherwise
the buffer and `in_speech` are left untouched. -/
theorem stepFrame_silence (p : SegParams) (st : SegState) (f : ℕ) (now : ℚ) :
    stepFrame p st f false now =
      if st.in_speech then
        if p.post_silence_frames ≤ st.silence_counter + 1 ∧
            p.min_speech_frames ≤ st.speech_frames.length then
          ({ st with in_speech := false, speech_frames := [],
                     silence_counter := 0,
                     samples_seen := st.samples_seen + p.frame_samples },
           emitSegment true st.speech_frames st.speech_start_sample)
        else
          ({ st with silence_counter := st.silence_counter + 1,
                     samples_seen := st.samples_seen + p.frame_samples }, [])
      else
        ({ st with samples_seen := st.samples_seen + p.frame_samples }, []) := by
  unfold stepFrame
  by_cases hin : st.in_speech <;> simp [hin]

/-- Opening a new utterance (lines 423–429): a speech frame arriving with
`in_speech = False` behaves like the same frame arriving in the freshly
opened state. -/
theorem stepFrame_speech_open (p : SegParams) (st : SegState) (f : ℕ) (now : ℚ)
    (hin : st.in_speech = false) :
    stepFrame p st f true now =
      stepFrame p { st with in_speech := true, speech_frames := [],
                            speech_start_sample := st.samples_seen,
                            silence_counter := 0, last_emit_time := now }
        f true now := by
  unfold stepFrame
  simp [hin]

/-- The speech branch of `callback` for a frame arriving inside an open
utterance with the partial timer elapsed (lines 423–446), fully evaluated. -/
theorem stepFrame_speech_emit (p : SegParams) (st : SegState) (f : ℕ) (now : ℚ)
    (hin : st.in_speech = true)
    (helapsed : p.partial_interval ≤ now - st.last_emit_time) :
    stepFrame p st f true now =
      (if p.max_segment_frames ≤ st.speech_frames.length + 1 then
         ({ st with in_speech := false, speech_frames := [],
                    silence_counter := 0, last_emit_time := now,
                    samples_seen := st.samples_seen + p.frame_samples },
          [⟨false,
            (st.speech_frames ++ [f]).drop
              (st.speech_frames.length + 1 - partialWindowFrames),
            st.speech_start_sample +
              (st.speech_frames.length + 1 - partialWindowFrames) * p.frame_samples⟩,
           ⟨true, st.speech_frames ++ [f], st.speech_start_sample⟩])
       else
         ({ st with speech_frames := st.speech_frames ++ [f],
                    silence_counter := 0, last_emit_time := now,
                    samples_seen := st.samples_seen + p.frame_samples },
          [⟨false,
            (st.speech_frames ++ [f]).drop
              (st.speech_frames.length + 1 - partialWindowFrames),
            st.speech_start_sample +
              (st.speech_frames.length + 1 - partialWindowFrames) * p.frame_samples⟩])) := by
  have hne : st.speech_frames ++ [f] ≠ [] := by simp
  have hdropne : (st.speech_frames ++ [f]).drop
      (st.speech_frames.length + 1 - partialWindowFrames) ≠ [] := by
    intro hcon
    have hlen := List.drop_eq_nil_iff.mp hcon
    simp only [List.length_append, List.length_singleton, partialWindowFrames] at hlen
    omega
  have hcond : ((st.speech_frames ++ [f]).length ≥ p.max_segment_frames) ↔
      (p.max_segment_frames ≤ st.speech_frames.length + 1) := by
    simp [List.length_append]
  unfold stepFrame
  simp only [hin, if_true]
  rw [if_pos helapsed]
  simp only [emitSegment, if_neg hne, if_neg hdropne, List.length_append,
    List.length_singleton, hcond]
  split_ifs <;> rfl

/-- The speech branch for a frame arriving inside an open utterance with the
partial timer **not** elapsed. -/
theorem stepFrame_speech_quiet (p : SegParams) (st : SegState) (f : ℕ) (now : ℚ)
    (hin : st.in_speech = true)
    (helapsed : ¬ p.partial_interval ≤ now - st.last_emit_time) :
    stepFrame p st f true now =
      (if p.max_segment_frames ≤ st.speech_frames.length + 1 then
         ({ st with in_speech := false, speech_frames := [],
                    silence_counter := 0,
                    samples_seen := st.samples_seen + p.frame_samples },
          [⟨true, st.speech_frames ++ [f], st.speech_start_sample⟩])
       else
         ({ st with speech_frames := st.speech_frames ++ [f],
                    silence_counter := 0,
                    samples_seen := st.samples_seen + p.frame_samples }, [])) := by
  have hne : st.speech_frames ++ [f] ≠ [] := by simp
  have hcond : ((st.speech_frames ++ [f]).length ≥ p.max_segment_frames) ↔
      (p.max_segment_frames ≤ st.speech_frames.length + 1) := by
    simp [List.length_append]
  unfold stepFrame
  simp only [hin, if_true]
  rw [if_neg helapsed]
  simp only [emitSegment, if_neg hne, List.length_append, List.length_singleton,
    hcond]
  split_ifs <;> rfl

/-- The buffered frame count stays below the cap across any single step
(the cap branch empties the buffer, any other branch keeps it below). -/
theorem stepFrame_frames_lt (p : SegParams) (hmax : 1 ≤ p.max_segment_frames)
    (st : SegState) (h : st.speech_frames.length < p.max_segment_frames)
    (f : ℕ) (b : Bool) (now : ℚ) :
    (stepFrame p st f b now).1.speech_frames.length < p.max_segment_frames := by
  have main : ∀ st' : SegState, st'.in_speech = true →
      st'.speech_frames.length < p.max_segment_frames →
      (stepFrame p st' f true now).1.speech_frames.length < p.max_segment_frames := by
    intro st' hin h'
    by_cases hpi : p.partial_interval ≤ now - st'.last_emit_time
    · rw [stepFrame_speech_emit p st' f now hin hpi]
      split_ifs with hcap <;> simp [List.length_append] <;> omega
    · rw [stepFrame_speech_quiet p st' f now hin hpi]
      split_ifs with hcap <;> simp [List.length_append] <;> omega
  cases b with
  | false =>
    rw [stepFrame_silence]
    split_ifs <;> simp <;> omega
  | true =>
    by_cases hin : st.in_speech
    · exact main st hin h
    · rw [stepFrame_speech_open p st f now (by simpa using hin)]
      exact main _ rfl (by simpa using hmax)

/-- The buffered frame count stays below the cap across any run. -/
theorem runFrames_frames_lt (p : SegParams) (hmax : 1 ≤ p.max_segment_frames)
    (st : SegState) (h : st.speech_frames.length < p.max_segment_frames)
    (ins : List FrameIn) :
    (runFrames p st ins).1.speech_frames.length < p.max_segment_frames := by
  induction ins generalizing st with
  | nil => exact h
  | cons i rest ih =>
    exact ih _ (stepFrame_frames_lt p hmax st h i.frame i.speech i.now)

/-! ## C2 — silence-closing path -/

/-- C2 (theorem, amended): the silence-closing path (lines 447–455) emits a
final utterance only when the buffered frame count has reached
`min_speech_frames` (first conjunct: any emission on a silence frame
requires `in_speech`, a full closing silence run, the minimum length, and is
the single final emission of the whole buffer).  However, when the closing
silence run is reached with fewer than `min_speech_frames` buffered frames,
the utterance is **not** discarded: nothing is emitted at that point, but
the buffer is retained and `in_speech` stays `True` (second conjunct), so
the short buffer can surface in a later emission — see the
counterexample. -/
theorem silence_close_min_frames (p : SegParams) (st : SegState) (f : ℕ) (now : ℚ) :
    ((stepFrame p st f false now).2 ≠ [] →
      st.in_speech = true ∧
      p.post_silence_frames ≤ st.silence_counter + 1 ∧
      p.min_speech_frames ≤ st.speech_frames.length ∧
      (stepFrame p st f false now).2 =
        [⟨true, st.speech_frames, st.speech_start_sample⟩]) ∧
    (st.in_speech = true →
      p.post_silence_frames ≤ st.silence_counter + 1 →
      st.speech_frames.length < p.min_speech_frames →
      (stepFrame p st f false now).2 = [] ∧
      (stepFrame p st f false now).1.speech_frames = st.speech_frames ∧
      (stepFrame p st f false now).1.in_speech = true) := by
  constructor
  · intro hne
    rw [stepFrame_silence] at hne
    by_cases hin : st.in_speech = true
    case neg => rw [if_neg hin] at hne; simp at hne
    rw [if_pos hin] at hne
    by_cases hcl : p.post_silence_frames ≤ st.silence_counter + 1 ∧
        p.min_speech_frames ≤ st.speech_frames.length
    case neg => rw [if_neg hcl] at hne; simp at hne
    rw [if_pos hcl] at hne
    have hfr : st.speech_frames ≠ [] := by
      intro hc
      rw [emitSegment, if_pos hc] at hne
      simp at hne
    refine ⟨hin, hcl.1, hcl.2, ?_⟩
    rw [stepFrame_silence, if_pos hin, if_pos hcl]
    simp [emitSegment, hfr]
  · intro hin hpost hlt
    have hcl : ¬ (p.post_silence_frames ≤ st.silence_counter + 1 ∧
        p.min_speech_frames ≤ st.speech_frames.length) := by
      rintro ⟨-, hm⟩
      omega
    rw [stepFrame_silence, if_pos hin, if_neg hcl]
    exact ⟨rfl, rfl, hin⟩

/-- C2 (witness): with `min_speech_frames = 3`, `post_silence_frames = 2`, a
one-frame buffer reaching its closing silence run emits nothing, keeps its
buffer and stays in speech. -/
theorem silence_close_min_frames_witness :
    (stepFrame ⟨320, 1000, 3, 2, 400⟩ ⟨true, [7], 0, 0, 960, 1⟩ 9 false 0).2 = [] ∧
    (stepFrame ⟨320, 1000, 3, 2, 400⟩ ⟨true, [7], 0, 0, 960, 1⟩ 9 false 0).1.speech_frames = [7] ∧
    (stepFrame ⟨320, 1000, 3, 2, 400⟩ ⟨true, [7], 0, 0, 960, 1⟩ 9 false 0).1.in_speech = true :=
  (silence_close_min_frames ⟨320, 1000, 3, 2, 400⟩ ⟨true, [7], 0, 0, 960, 1⟩ 9 0).2
    rfl (by decide) (by decide)

/-- C2 (counterexample): with `min_speech_frames = 3`,
`post_silence_frames = 2`, the stream speech/silence/silence reaches the
closing silence run with a single buffered frame (`[0]`, below the
minimum), yet the buffer is **not** discarded: `in_speech` stays `True`
with frame `0` still buffered, and after two more speech frames and a
closing silence the emitted final utterance `[0, 3, 4]` contains frame `0`
of the too-short utterance — contradicting "discarded without emitting
anything (no partial or final emission is produced from it)". -/
theorem silence_close_discard_counterexample :
    (runFrames ⟨320, 1000, 3, 2, 400⟩ initSegState
        [⟨0, true, 0⟩, ⟨1, false, 0⟩, ⟨2, false, 0⟩]).1 =
      { in_speech := true, speech_frames := [0], speech_start_sample := 0,
        last_emit_time := 0, samples_seen := 960, silence_counter := 2 } ∧
    (runFrames ⟨320, 1000, 3, 2, 400⟩ initSegState
        [⟨0, true, 0⟩, ⟨1, false, 0⟩, ⟨2, false, 0⟩, ⟨3, true, 0⟩, ⟨4, true, 0⟩,
         ⟨5, false, 0⟩, ⟨6, false, 0⟩]).2 = [⟨true, [0, 3, 4], 0⟩] := by
  norm_num [runFrames, stepFrame, emitSegment, initSegState, partialWindowFrames]
  decide

/-! ## C3 — maximum utterance length -/

/-- C3: for every input frame sequence the buffered frame count of the
current utterance never exceeds `max_segment_frames` (it stays strictly
below between frames); and when a speech frame makes the buffer reach the
cap mid-speech, a final utterance holding **all** buffered frames is
emitted in the same step and the state is reset (`in_speech = False`,
empty buffer) with no silence involved.  The hypothesis `1 ≤` is the
source's own `max(1, int(max_segment_ms / 20))`. -/
theorem segmenter_max_frames_cap (p : SegParams) (hmax : 1 ≤ p.max_segment_frames) :
    (∀ ins : List FrameIn,
        (runFrames p initSegState ins).1.speech_frames.length <
          p.max_segment_frames) ∧
    (∀ (st : SegState) (f : ℕ) (now : ℚ),
        st.in_speech = true →
        p.max_segment_frames ≤ st.speech_frames.length + 1 →
        (stepFrame p st f true now).1.in_speech = false ∧
        (stepFrame p st f true now).1.speech_frames = [] ∧
        ∃ pre, (stepFrame p st f true now).2 =
          pre ++ [⟨true, st.speech_frames ++ [f], st.speech_start_sample⟩]) := by
  constructor
  · intro ins
    refine runFrames_frames_lt p hmax initSegState ?_ ins
    simpa [initSegState] using hmax
  · intro st f now hin hcap
    by_cases hpi : p.partial_interval ≤ now - st.last_emit_time
    · rw [stepFrame_speech_emit p st f now hin hpi, if_pos hcap]
      exact ⟨rfl, rfl,
        [⟨false,
          (st.speech_frames ++ [f]).drop
            (st.speech_frames.length + 1 - partialWindowFrames),
          st.speech_start_sample +
            (st.speech_frames.length + 1 - partialWindowFrames) *
              p.frame_samples⟩], rfl⟩
    · rw [stepFrame_speech_quiet p st f now hin hpi, if_pos hcap]
      exact ⟨rfl, rfl, [], rfl⟩

/-- C3 (witness): with cap 2, after the frame that reaches the cap the
state is reset and the final emission carries both buffered frames. -/
theorem segmenter_max_frames_cap_witness :
    (runFrames ⟨320, 1, 15, 20, 2⟩ initSegState [⟨0, true, 0⟩]).1.speech_frames.length < 2 ∧
    ((stepFrame ⟨320, 1, 15, 20, 2⟩ ⟨true, [5], 0, 0, 320, 0⟩ 6 true 1).1.in_speech = false ∧
     (stepFrame ⟨320, 1, 15, 20, 2⟩ ⟨true, [5], 0, 0, 320, 0⟩ 6 true 1).1.speech_frames = [] ∧
     ∃ pre, (stepFrame ⟨320, 1, 15, 20, 2⟩ ⟨true, [5], 0, 0, 320, 0⟩ 6 true 1).2 =
       pre ++ [⟨true, [5] ++ [6], 0⟩]) :=
  ⟨(segmenter_max_frames_cap ⟨320, 1, 15, 20, 2⟩ (by decide)).1 [⟨0, true, 0⟩],
   (segmenter_max_frames_cap ⟨320, 1, 15, 20, 2⟩ (by decide)).2
     ⟨true, [5], 0, 0, 320, 0⟩ 6 1 rfl (by decide)⟩

/-! ## C6 — partial emissions and the sliding window -/

/-- C6: while in speech, when at least `partial_interval` seconds have
elapsed since `last_emit_time` (the recorded time of the previous partial
emission, initialised at speech start), the step emits a partial utterance
first, containing exactly the last `min (length) 30` buffered frames —
at most 30 of the 20 ms frames, ≈0.6 s — with start offset
`speech_start_sample` advanced by `frame_samples` for each skipped frame,
and records `now` as the new `last_emit_time`. -/
theorem partial_emission_window (p : SegParams) (st : SegState) (f : ℕ) (now : ℚ)
    (hin : st.in_speech = true)
    (helapsed : p.partial_interval ≤ now - st.last_emit_time) :
    (∃ rest, (stepFrame p st f true now).2 =
        ⟨false,
         (st.speech_frames ++ [f]).drop
           (st.speech_frames.length + 1 - partialWindowFrames),
         st.speech_start_sample +
           (st.speech_frames.length + 1 - partialWindowFrames) *
             p.frame_samples⟩ :: rest) ∧
    ((st.speech_frames ++ [f]).drop
        (st.speech_frames.length + 1 - partialWindowFrames)).length =
      min (st.speech_frames.length + 1) partialWindowFrames ∧
    ((st.speech_frames ++ [f]).drop
        (st.speech_frames.length + 1 - partialWindowFrames)).length ≤
      partialWindowFrames ∧
    (stepFrame p st f true now).1.last_emit_time = now := by
  refine ⟨?_, ?_, ?_, ?_⟩
  · rw [stepFrame_speech_emit p st f now hin helapsed]
    split_ifs with hcap
    · exact ⟨[⟨true, st.speech_frames ++ [f], st.speech_start_sample⟩], rfl⟩
    · exact ⟨[], rfl⟩
  · rw [List.length_drop, List.length_append]
    simp only [List.length_singleton, partialWindowFrames]
    omega
  · rw [List.length_drop, List.length_append]
    simp only [List.length_singleton, partialWindowFrames]
    omega
  · rw [stepFrame_speech_emit p st f now hin helapsed]
    split_ifs <;> rfl

/-- C6 (witness): a two-frame buffer receiving a third frame with the timer
elapsed emits a partial containing the whole (≤ 30 frame) buffer at the
unadjusted offset, and the emit time is recorded. -/
theorem partial_emission_window_witness :
    (∃ rest, (stepFrame ⟨320, 1, 15, 20, 400⟩ ⟨true, [1, 2], 0, 0, 640, 0⟩ 3 true 1).2 =
        ⟨false, [1, 2, 3], 0⟩ :: rest) ∧
    ([1, 2, 3] : List ℕ).length ≤ partialWindowFrames ∧
    (stepFrame ⟨320, 1, 15, 20, 400⟩ ⟨true, [1, 2], 0, 0, 640, 0⟩ 3 true 1).1.last_emit_time = 1 :=
  ⟨(partial_emission_window ⟨320, 1, 15, 20, 400⟩ ⟨true, [1, 2], 0, 0, 640, 0⟩ 3 1
      rfl (by norm_num)).1,
   (partial_emission_window ⟨320, 1, 15, 20, 400⟩ ⟨true, [1, 2], 0, 0, 640, 0⟩ 3 1
      rfl (by norm_num)).2.2.1,
   (partial_emission_window ⟨320, 1, 15, 20, 400⟩ ⟨true, [1, 2], 0, 0, 640, 0⟩ 3 1
      rfl (by norm_num)).2.2.2⟩

/-! ## ContinuityMerger step lemmas -/

/-- Same speaker as the open turn: the step merges — `is_interruption`
cannot hold (its third conjunct contradicts the branch guard), so the text
is appended and the end extended, and nothing is closed. -/
theorem mergeStep_same (gap : ℚ) (st : MergeState) (s : ASeg)
    (h : s.speaker = st.cur_speaker) :
    mergeStep gap st s =
      ({ st with prev := s, cur_text := st.cur_text ++ [s.text],
                 cur_end := s.endT }, []) := by
  unfold mergeStep
  rw [if_pos]
  exact ⟨h, fun hc => hc.2.2 h⟩

/-- Different speaker from the open turn: the step always closes and opens,
whatever the gap (the merge guard already fails on its first conjunct). -/
theorem mergeStep_diff (gap : ℚ) (st : MergeState) (s : ASeg)
    (h : s.speaker ≠ st.cur_speaker) :
    mergeStep gap st s =
      (⟨s, s.speaker, [s.text], s.startT, s.endT⟩,
       if st.cur_text = [] then [] else [flushTurn st]) := by
  unfold mergeStep
  rw [if_neg]
  exact fun hc => h hc.1

/-! ## C4 — merge policy of the ContinuityMerger -/

/-- C4: in `_create_continuous_transcription`, a segment with the open
turn's speaker appends its text and extends the end; a segment with a
different speaker always closes the open turn and opens a new one; and the
step is identical for any two values of `interruption_gap` (the
interruption/pause distinction never changes the action).  The two spec
scenarios evaluate as stated: same-speaker segments with gap 0.2 merge into
one turn `{A, 0, 2, "hi there"}`, and a different-speaker segment with gap
0.1 yields two turns. -/
theorem continuity_merge_policy :
    (∀ (gap : ℚ) (st : MergeState) (s : ASeg), s.speaker = st.cur_speaker →
        mergeStep gap st s =
          ({ st with prev := s, cur_text := st.cur_text ++ [s.text],
                     cur_end := s.endT }, [])) ∧
    (∀ (gap : ℚ) (st : MergeState) (s : ASeg), s.speaker ≠ st.cur_speaker →
        mergeStep gap st s =
          (⟨s, s.speaker, [s.text], s.startT, s.endT⟩,
           if st.cur_text = [] then [] else [flushTurn st])) ∧
    (∀ (g1 g2 : ℚ) (st : MergeState) (s : ASeg),
        mergeStep g1 st s = mergeStep g2 st s) ∧
    createContinuousTranscription 1
        [⟨"A", 0, 1, "hi".data⟩, ⟨"A", 1.2, 2, "there".data⟩] =
      [⟨"A", 0, 2, "hi there".data⟩] ∧
    createContinuousTranscription 1
        [⟨"A", 0, 1, "go on".data⟩, ⟨"B", 1.1, 1.5, "wait".data⟩] =
      [⟨"A", 0, 1, "go on".data⟩, ⟨"B", 1.1, 1.5, "wait".data⟩] := by
  refine ⟨mergeStep_same, mergeStep_diff, ?_, rfl, rfl⟩
  intro g1 g2 st s
  by_cases h : s.speaker = st.cur_speaker
  · rw [mergeStep_same g1 st s h, mergeStep_same g2 st s h]
  · rw [mergeStep_diff g1 st s h, mergeStep_diff g2 st s h]

/-- C4 (witness): the merge and close-and-open equations at concrete
states. -/
theorem continuity_merge_policy_witness :
    mergeStep 1 ⟨⟨"A", 0, 1, "hi".data⟩, "A", ["hi".data], 0, 1⟩ ⟨"A", 2, 3, "yo".data⟩ =
      (⟨⟨"A", 2, 3, "yo".data⟩, "A", ["hi".data] ++ ["yo".data], 0, 3⟩, []) ∧
    mergeStep 1 ⟨⟨"A", 0, 1, "hi".data⟩, "A", ["hi".data], 0, 1⟩ ⟨"B", 2, 3, "yo".data⟩ =
      (⟨⟨"B", 2, 3, "yo".data⟩, "B", ["yo".data], 2, 3⟩,
       if (["hi".data] : List PyStr) = [] then []
       else [flushTurn ⟨⟨"A", 0, 1, "hi".data⟩, "A", ["hi".data], 0, 1⟩]) :=
  ⟨continuity_merge_policy.1 1 _ _ rfl,
   continuity_merge_policy.2.1 1 _ _ (by decide)⟩

/-! ## Word-level lemmas for the round-trip property -/

/-- Scanning an all-whitespace tail yields the same words as ending the
scan. -/
theorem wordsAux_all_space (t : PyStr) (ht : ∀ c ∈ t, pyIsSpace c = true)
    (acc : PyStr) : wordsAux acc t = wordsAux acc [] := by
  induction t generalizing acc with
  | nil => rfl
  | cons c t ih =>
    have hc : pyIsSpace c = true := ht c (List.mem_cons_self c t)
    have ht' : ∀ x ∈ t, pyIsSpace x = true :=
      fun x hx => ht x (List.mem_cons_of_mem c hx)
    by_cases hacc : acc.isEmpty <;>
      simp [wordsAux, hc, hacc, ih ht']

/-- An all-whitespace suffix contributes no words. -/
theorem wordsAux_append_allspace (s t : PyStr)
    (ht : ∀ c ∈ t, pyIsSpace c = true) (acc : PyStr) :
    wordsAux acc (s ++ t) = wordsAux acc s := by
  induction s generalizing acc with
  | nil => simpa using wordsAux_all_space t ht acc
  | cons c s ih =>
    by_cases hc : pyIsSpace c <;> by_cases hacc : acc.isEmpty <;>
      simp [wordsAux, hc, hacc, ih]

/-- Leading whitespace contributes no words. -/
theorem wordsAux_dropWhile_space (s : PyStr) :
    wordsAux [] (s.dropWhile pyIsSpace) = wordsAux [] s := by
  induction s with
  | nil => rfl
  | cons c s ih =>
    by_cases hc : pyIsSpace c <;> simp [List.dropWhile_cons, wordsAux, hc, ih]

/-- Python `split()` ignores `strip()`: stripping surrounding whitespace
never changes the word list. -/
theorem pyWords_stripWs (s : PyStr) : pyWords (pyStripWs s) = pyWords s := by
  have key : ∀ l : PyStr,
      wordsAux [] ((l.reverse.dropWhile pyIsSpace).reverse) = wordsAux [] l := by
    intro l
    have hspace : ∀ c ∈ (l.reverse.takeWhile pyIsSpace).reverse,
        pyIsSpace c = true := by
      intro c hc
      rw [List.mem_reverse] at hc
      exact List.mem_takeWhile_imp hc
    have hl : l = (l.reverse.dropWhile pyIsSpace).reverse ++
        (l.reverse.takeWhile pyIsSpace).reverse := by
      calc l = l.reverse.reverse := (List.reverse_reverse l).symm
        _ = ((l.reverse.takeWhile pyIsSpace) ++ l.reverse.dropWhile pyIsSpace).reverse := by
              rw [List.takeWhile_append_dropWhile]
        _ = (l.reverse.dropWhile pyIsSpace).reverse ++
              (l.reverse.takeWhile pyIsSpace).reverse := by
              rw [List.reverse_append]
    conv_rhs => rw [hl]
    exact (wordsAux_append_allspace _ _ hspace []).symm
  show wordsAux [] (stripTrailing pyIsSpace (stripLeading pyIsSpace s)) = _
  rw [stripTrailing, stripLeading, key (s.dropWhile pyIsSpace)]
  exact wordsAux_dropWhile_space s

/-- Splitting distributes over a single separating space. -/
theorem wordsAux_append_space (x y : PyStr) (acc : PyStr) :
    wordsAux acc (x ++ ' ' :: y) = wordsAux acc x ++ wordsAux [] y := by
  induction x generalizing acc with
  | nil =>
    have hsp : pyIsSpace ' ' = true := rfl
    by_cases hacc : acc.isEmpty <;> simp [wordsAux, hsp, hacc]
  | cons c x ih =>
    by_cases hc : pyIsSpace c <;> by_cases hacc : acc.isEmpty <;>
      simp [wordsAux, hc, hacc, ih]

/-- The words of a space-join are the concatenation of the words. -/
theorem pyWords_joinSpace (xs : List PyStr) :
    pyWords (joinSpace xs) = (xs.map pyWords).flatten := by
  induction xs with
  | nil => rfl
  | cons x xs ih =>
    cases xs with
    | nil => simp [joinSpace, pyWords, wordsAux]
    | cons y ys =>
      show pyWords (x ++ ' ' :: joinSpace (y :: ys)) = _
      rw [pyWords, wordsAux_append_space]
      have h2 : wordsAux [] (joinSpace (y :: ys)) = ((y :: ys).map pyWords).flatten := ih
      rw [h2]
      simp [pyWords]

/-- Under a single speaker the merge loop closes exactly one turn whose
text is the stripped space-join of the open text and all remaining segment
texts. -/
theorem mergeLoop_same_speaker (gap : ℚ) (rest : List ASeg) (st : MergeState)
    (hspk : ∀ s ∈ rest, s.speaker = st.cur_speaker)
    (hne : st.cur_text ≠ []) :
    (mergeLoop gap st rest).map Turn.text =
      [pyStripWs (joinSpace (st.cur_text ++ rest.map ASeg.text))] := by
  induction rest generalizing st with
  | nil => simp [mergeLoop, hne, flushTurn]
  | cons s rest ih =>
    have hs : s.speaker = st.cur_speaker := hspk s (List.mem_cons_self s rest)
    have hstep : mergeLoop gap st (s :: rest) =
        (mergeStep gap st s).2 ++ mergeLoop gap (mergeStep gap st s).1 rest := rfl
    rw [hstep, mergeStep_same gap st s hs]
    have h1 : ∀ x ∈ rest, x.speaker =
        ({ st with prev := s, cur_text := st.cur_text ++ [s.text],
                   cur_end := s.endT } : MergeState).cur_speaker :=
      fun x hx => hspk x (List.mem_cons_of_mem s hx)
    have h2 : st.cur_text ++ [s.text] ≠ [] := by simp
    rw [List.nil_append, ih _ h1 h2]
    simp

/-! ## C9 — single-speaker word round-trip -/

/-- C9: when every input segment carries one speaker, the words of the
merged turns' texts, concatenated in order, equal the words of the input
texts concatenated in order (the single closed turn's text is the stripped
space-join of all input texts, and splitting on whitespace undoes the
join). -/
theorem single_speaker_word_roundtrip (gap : ℚ) (spk : String) (segs : List ASeg)
    (h : ∀ s ∈ segs, s.speaker = spk) :
    ((createContinuousTranscription gap segs).map (fun t => pyWords t.text)).flatten =
      (segs.map (fun s => pyWords s.text)).flatten := by
  cases segs with
  | nil => rfl
  | cons s0 rest =>
    have hspk : ∀ s ∈ rest, s.speaker =
        (⟨s0, s0.speaker, [s0.text], s0.startT, s0.endT⟩ : MergeState).cur_speaker := by
      intro s hs
      rw [h s (List.mem_cons_of_mem s0 hs)]
      exact (h s0 (List.mem_cons_self s0 rest)).symm
    have htext := mergeLoop_same_speaker gap rest
      ⟨s0, s0.speaker, [s0.text], s0.startT, s0.endT⟩ hspk (by simp)
    show ((mergeLoop gap ⟨s0, s0.speaker, [s0.text], s0.startT, s0.endT⟩ rest).map
        (fun t => pyWords t.text)).flatten = _
    have hmap : (mergeLoop gap ⟨s0, s0.speaker, [s0.text], s0.startT, s0.endT⟩ rest).map
        (fun t => pyWords t.text) =
        [pyWords (pyStripWs (joinSpace ([s0.text] ++ rest.map ASeg.text)))] := by
      have := congrArg (List.map pyWords) htext
      simpa [List.map_map, Function.comp] using this
    rw [hmap, pyWords_stripWs, pyWords_joinSpace]
    simp only [List.map_append, List.map_map, List.map_cons, List.map_nil,
      List.flatten_cons, List.flatten_nil, List.append_nil]
    rfl

/-- C9 (witness): the round-trip at a concrete two-segment single-speaker
stream. -/
theorem single_speaker_word_roundtrip_witness :
    ((createContinuousTranscription 1
        [⟨"A", 0, 1, "hi".data⟩, ⟨"A", 2, 3, "there".data⟩]).map
          (fun t => pyWords t.text)).flatten =
      (([⟨"A", 0, 1, "hi".data⟩, ⟨"A", 2, 3, "there".data⟩] : List ASeg).map
          (fun s => pyWords s.text)).flatten :=
  single_speaker_word_roundtrip 1 "A" _ (by decide)

/-! ## Noise-filter branch lemmas -/

/-- A segment whose whitespace-stripped text is empty is skipped. -/
theorem noiseFilter_drop_empty (a b : ℚ) (s : TSeg) (rest : List TSeg)
    (acc : List OutSeg) (h : pyStripWs s.text = []) :
    noiseFilter a b (s :: rest) acc = noiseFilter a b rest acc := by
  simp only [noiseFilter]
  rw [if_pos h]

/-- A segment whose punctuation-stripped, lower-cased text is a filler token
is skipped. -/
theorem noiseFilter_drop_filler (a b : ℚ) (s : TSeg) (rest : List TSeg)
    (acc : List OutSeg)
    (h : pyStrip fillerStripChar (pyLower (pyStripWs s.text)) ∈ fillerTokens) :
    noiseFilter a b (s :: rest) acc = noiseFilter a b rest acc := by
  simp only [noiseFilter]
  by_cases he : pyStripWs s.text = []
  · rw [if_pos he]
  · rw [if_neg he, if_pos h]

/-- A segment whose no-speech probability exceeds 0.6 is skipped. -/
theorem noiseFilter_drop_nsp (a b : ℚ) (s : TSeg) (rest : List TSeg)
    (acc : List OutSeg) (h : 6/10 < s.no_speech_prob) :
    noiseFilter a b (s :: rest) acc = noiseFilter a b rest acc := by
  simp only [noiseFilter]
  by_cases he : pyStripWs s.text = []
  · rw [if_pos he]
  · rw [if_neg he]
    by_cases hf : pyStrip fillerStripChar (pyLower (pyStripWs s.text)) ∈ fillerTokens
    · rw [if_pos hf]
    · rw [if_neg hf, if_pos h]

/-- The duplicate check of lines 499–502: a segment whose lower-cased text
starts with the previous retained text, or is a suffix of it, is skipped. -/
theorem noiseFilter_drop_dup (a b : ℚ) (s : TSeg) (rest : List TSeg)
    (acc : List OutSeg) (prev : OutSeg) (hlast : acc.getLast? = some prev)
    (hdup : ((pyLower prev.text).isPrefixOf (pyLower (pyStripWs s.text)) ||
             (pyLower (pyStripWs s.text)).isSuffixOf (pyLower prev.text)) = true) :
    noiseFilter a b (s :: rest) acc = noiseFilter a b rest acc := by
  simp only [noiseFilter, hlast]
  by_cases he : pyStripWs s.text = []
  · rw [if_pos he]
  · rw [if_neg he]
    by_cases hf : pyStrip fillerStripChar (pyLower (pyStripWs s.text)) ∈ fillerTokens
    · rw [if_pos hf]
    · rw [if_neg hf]
      by_cases hn : 6/10 < s.no_speech_prob
      · rw [if_pos hn]
      · rw [if_neg hn, if_pos hdup]

/-- A segment passing all four checks is retained, labelled `"USER"`, with
missing timestamps defaulted to the task bounds. -/
theorem noiseFilter_keep (a b : ℚ) (s : TSeg) (rest : List TSeg)
    (acc : List OutSeg)
    (h1 : pyStripWs s.text ≠ [])
    (h2 : pyStrip fillerStripChar (pyLower (pyStripWs s.text)) ∉ fillerTokens)
    (h3 : ¬ 6/10 < s.no_speech_prob)
    (h4 : (match acc.getLast? with
           | some prev =>
             (pyLower prev.text).isPrefixOf (pyLower (pyStripWs s.text)) ||
             (pyLower (pyStripWs s.text)).isSuffixOf (pyLower prev.text)
           | none => false) = false) :
    noiseFilter a b (s :: rest) acc =
      noiseFilter a b rest
        (acc ++ [⟨s.startT.getD a, s.endT.getD b, pyStripWs s.text, "USER"⟩]) := by
  simp only [noiseFilter]
  rw [if_neg h1, if_neg h2, if_neg h3, if_neg]
  intro hc
  rw [h4] at hc
  exact Bool.noConfusion hc

/-! ## C5 — the worker noise filter -/

/-- C5 (theorem, amended): the worker's noise filter drops a segment whose
whitespace-stripped text is empty, or whose lower-cased text stripped of
`" .!"` is one of `{ok, okay, yeah, uh, um}`, or whose `no_speech_prob`
exceeds 0.6; it drops a segment whose lower-cased text **starts with** the
previously retained segment's text or **is a suffix of** it (not "is a
prefix of, or fully contains", which fails — see the counterexample); any
other segment is retained with speaker `"USER"`; and every retained segment
has speaker `"USER"` and non-empty text. -/
theorem noise_filter_policy (a b : ℚ) :
    (∀ (s : TSeg) (rest : List TSeg) (acc : List OutSeg),
        pyStripWs s.text = [] →
        noiseFilter a b (s :: rest) acc = noiseFilter a b rest acc) ∧
    (∀ (s : TSeg) (rest : List TSeg) (acc : List OutSeg),
        pyStrip fillerStripChar (pyLower (pyStripWs s.text)) ∈ fillerTokens →
        noiseFilter a b (s :: rest) acc = noiseFilter a b rest acc) ∧
    (∀ (s : TSeg) (rest : List TSeg) (acc : List OutSeg),
        6/10 < s.no_speech_prob →
        noiseFilter a b (s :: rest) acc = noiseFilter a b rest acc) ∧
    (∀ (s : TSeg) (rest : List TSeg) (acc : List OutSeg) (prev : OutSeg),
        acc.getLast? = some prev →
        ((pyLower prev.text).isPrefixOf (pyLower (pyStripWs s.text)) ||
         (pyLower (pyStripWs s.text)).isSuffixOf (pyLower prev.text)) = true →
        noiseFilter a b (s :: rest) acc = noiseFilter a b rest acc) ∧
    (∀ (s : TSeg) (rest : List TSeg) (acc : List OutSeg),
        pyStripWs s.text ≠ [] →
        pyStrip fillerStripChar (pyLower (pyStripWs s.text)) ∉ fillerTokens →
        ¬ 6/10 < s.no_speech_prob →
        (match acc.getLast? with
         | some prev =>
           (pyLower prev.text).isPrefixOf (pyLower (pyStripWs s.text)) ||
           (pyLower (pyStripWs s.text)).isSuffixOf (pyLower prev.text)
         | none => false) = false →
        noiseFilter a b (s :: rest) acc =
          noiseFilter a b rest
            (acc ++ [⟨s.startT.getD a, s.endT.getD b, pyStripWs s.text, "USER"⟩])) ∧
    (∀ (ts : List TSeg) (o : OutSeg),
        o ∈ noiseFilter a b ts [] → o.speaker = "USER" ∧ o.text ≠ []) := by
  have gen : ∀ (ts : List TSeg) (acc : List OutSeg),
      (∀ x ∈ acc, x.speaker = "USER" ∧ x.text ≠ []) →
      ∀ o ∈ noiseFilter a b ts acc, o.speaker = "USER" ∧ o.text ≠ [] := by
    intro ts
    induction ts with
    | nil =>
      intro acc hacc o ho
      simp only [noiseFilter] at ho
      exact hacc o ho
    | cons s rest ih =>
      intro acc hacc o ho
      simp only [noiseFilter] at ho
      split_ifs at ho with h1 h2 h3 h4
      · exact ih acc hacc o ho
      · exact ih acc hacc o ho
      · exact ih acc hacc o ho
      · exact ih acc hacc o ho
      · refine ih _ ?_ o ho
        intro x hx
        rcases List.mem_append.mp hx with hx | hx
        · exact hacc x hx
        · rw [List.mem_singleton] at hx
          subst hx
          exact ⟨rfl, h1⟩
  exact ⟨noiseFilter_drop_empty a b, noiseFilter_drop_filler a b,
         noiseFilter_drop_nsp a b, noiseFilter_drop_dup a b,
         noiseFilter_keep a b, fun ts o ho => gen ts [] (by simp) o ho⟩

/-- C5 (witness): a whitespace-only segment is dropped by the filter. -/
theorem noise_filter_policy_witness :
    noiseFilter 0 1 [⟨[' '], 0, none, none⟩] [] = noiseFilter 0 1 [] [] :=
  (noise_filter_policy 0 1).1 ⟨[' '], 0, none, none⟩ [] [] (by decide)

/-- C5 (counterexample): the duplicate check drops a segment only when its
text *starts with* the previous retained text, or *is a suffix of* it — not
when it "is a prefix of, or fully contains" the previous text as the claim
states.  `"hello"` is a prefix of the previously retained `"hello there"`,
so the claim says it is dropped, but the filter retains both; likewise a
pure-punctuation segment `"..."` (empty after trimming punctuation) is
retained, not dropped. -/
theorem noise_filter_dedup_counterexample :
    noiseFilter 0 1 [⟨"hello there".data, 0, none, none⟩,
        ⟨"hello".data, 0, none, none⟩] [] =
      [⟨0, 1, "hello there".data, "USER"⟩, ⟨0, 1, "hello".data, "USER"⟩] ∧
    noiseFilter 0 1 [⟨"...".data, 0, none, none⟩] [] =
      [⟨0, 1, "...".data, "USER"⟩] := by
  constructor
  · rw [noiseFilter_keep 0 1 _ _ _ (by decide) (by decide) (by norm_num) (by decide)]
    rw [noiseFilter_keep 0 1 _ _ _ (by decide) (by decide) (by norm_num) (by decide)]
    rfl
  · rw [noiseFilter_keep 0 1 _ _ _ (by decide) (by decide) (by norm_num) (by decide)]
    rfl

/-! ## Simple-heuristic diarizer lemmas -/

/-- The toggled label always differs from the current one. -/
theorem toggleSpeaker_ne (s : String) : toggleSpeaker s ≠ s := by
  unfold toggleSpeaker
  split_ifs with h
  · rw [h]
    decide
  · exact fun hc => h hc.symm

/-- One loop step before any segment has been retained (`last_end = None`):
no toggle can fire. -/
theorem simpleLoop_cons_none (gap : ℚ) (cur : String) (seg : WSeg)
    (tail : List WSeg) :
    simpleLoop gap cur none (seg :: tail) =
      if pyStripWs seg.text = [] then simpleLoop gap cur none tail
      else (⟨seg.startT, seg.endT, pyStripWs seg.text, cur⟩ : OutSeg) ::
        simpleLoop gap cur (some seg.endT) tail := rfl

/-- One loop step after a segment has been retained: the label toggles
exactly on a gap strictly larger than `gap`. -/
theorem simpleLoop_cons_some (gap : ℚ) (cur : String) (l : ℚ) (seg : WSeg)
    (tail : List WSeg) :
    simpleLoop gap cur (some l) (seg :: tail) =
      if pyStripWs seg.text = [] then simpleLoop gap cur (some l) tail
      else
        (⟨seg.startT, seg.endT, pyStripWs seg.text,
          if seg.startT - l > gap then toggleSpeaker cur else cur⟩ : OutSeg) ::
        simpleLoop gap (if seg.startT - l > gap then toggleSpeaker cur else cur)
          (some seg.endT) tail := rfl

/-- Starting from a retained segment `o` (current speaker `o.speaker`, last
end `o.endT`), every adjacent pair of retained segments alternates speaker
exactly when the gap strictly exceeds `gap`. -/
theorem simpleLoop_chain (gap : ℚ) (ws : List WSeg) (o : OutSeg) :
    List.Chain (fun a b => (b.speaker ≠ a.speaker ↔ gap < b.startT - a.endT)) o
      (simpleLoop gap o.speaker (some o.endT) ws) := by
  induction ws generalizing o with
  | nil => exact List.Chain.nil
  | cons seg rest ih =>
    rw [simpleLoop_cons_some]
    split_ifs with h1 hgap
    · exact ih o
    · refine List.Chain.cons ?_
        (ih ⟨seg.startT, seg.endT, pyStripWs seg.text, toggleSpeaker o.speaker⟩)
      exact ⟨fun _ => hgap, fun _ => toggleSpeaker_ne o.speaker⟩
    · refine List.Chain.cons ?_
        (ih ⟨seg.startT, seg.endT, pyStripWs seg.text, o.speaker⟩)
      exact ⟨fun hne => absurd rfl hne, fun hlt => absurd hlt hgap⟩

/-- Before any segment is retained (`last_end = None`), the first retained
segment gets the current speaker unchanged. -/
theorem simpleLoop_none_first (gap : ℚ) (cur : String) (ws : List WSeg) :
    ∀ (o0 : OutSeg) (rest : List OutSeg),
      simpleLoop gap cur none ws = o0 :: rest → o0.speaker = cur := by
  induction ws with
  | nil =>
    intro o0 rest h
    exact absurd h (by simp [simpleLoop])
  | cons seg tail ih =>
    intro o0 rest h
    rw [simpleLoop_cons_none] at h
    split_ifs at h with h1
    · exact ih o0 rest h
    · obtain ⟨h2, -⟩ := List.cons.inj h
      rw [← h2]

/-- The full output of a run started with `last_end = None` alternates
speakers exactly on gaps strictly exceeding `gap`. -/
theorem simpleLoop_none_chain (gap : ℚ) (cur : String) (ws : List WSeg) :
    List.Chain' (fun a b => (b.speaker ≠ a.speaker ↔ gap < b.startT - a.endT))
      (simpleLoop gap cur none ws) := by
  induction ws with
  | nil => simp [simpleLoop]
  | cons seg tail ih =>
    rw [simpleLoop_cons_none]
    split_ifs with h1
    · exact ih
    · show List.Chain _ (⟨seg.startT, seg.endT, pyStripWs seg.text, cur⟩ : OutSeg) _
      exact simpleLoop_chain gap tail ⟨seg.startT, seg.endT, pyStripWs seg.text, cur⟩

/-- Every retained segment is labelled with one of the two heuristic
speakers, provided the current label is one of them. -/
theorem simpleLoop_labels (gap : ℚ) (ws : List WSeg) :
    ∀ (cur : String) (le : Option ℚ),
      (cur = "SPEAKER_00" ∨ cur = "SPEAKER_01") →
      ∀ o ∈ simpleLoop gap cur le ws,
        o.speaker = "SPEAKER_00" ∨ o.speaker = "SPEAKER_01" := by
  induction ws with
  | nil =>
    intro cur le hcur o ho
    simp [simpleLoop] at ho
  | cons seg tail ih =>
    intro cur le hcur o ho
    have htog : toggleSpeaker cur = "SPEAKER_00" ∨ toggleSpeaker cur = "SPEAKER_01" := by
      unfold toggleSpeaker
      split_ifs <;> simp
    cases le with
    | none =>
      rw [simpleLoop_cons_none] at ho
      split_ifs at ho with h1
      · exact ih cur none hcur o ho
      · rcases List.mem_cons.mp ho with h | h
        · rw [h]
          exact hcur
        · exact ih cur (some seg.endT) hcur o h
    | some l =>
      rw [simpleLoop_cons_some] at ho
      split_ifs at ho with h1 hgap
      · exact ih cur (some l) hcur o ho
      · rcases List.mem_cons.mp ho with h | h
        · rw [h]
          exact htog
        · exact ih _ (some seg.endT) htog o h
      · rcases List.mem_cons.mp ho with h | h
        · rw [h]
          exact hcur
        · exact ih cur (some seg.endT) hcur o h

/-- Retained segments are exactly the inputs with non-empty stripped text,
in order, carrying their own start, end and stripped text — the speaker
threading never changes which segments survive. -/
theorem simpleLoop_projection (gap : ℚ) (ws : List WSeg) :
    ∀ (cur : String) (le : Option ℚ),
      (simpleLoop gap cur le ws).map (fun o => (o.startT, o.endT, o.text)) =
        (ws.filter (fun w => !(pyStripWs w.text).isEmpty)).map
          (fun w => (w.startT, w.endT, pyStripWs w.text)) := by
  induction ws with
  | nil => intro cur le; rfl
  | cons seg tail ih =>
    intro cur le
    by_cases h1 : pyStripWs seg.text = []
    · have hp : ¬ ((!(pyStripWs seg.text).isEmpty) = true) := by simp [h1]
      cases le with
      | none =>
        rw [simpleLoop_cons_none, if_pos h1, List.filter_cons, if_neg hp]
        exact ih cur none
      | some l =>
        rw [simpleLoop_cons_some, if_pos h1, List.filter_cons, if_neg hp]
        exact ih cur (some l)
    · have hp : (!(pyStripWs seg.text).isEmpty) = true := by simp [h1]
      cases le with
      | none =>
        rw [simpleLoop_cons_none, if_neg h1, List.filter_cons, if_pos hp]
        simp only [List.map_cons]
        rw [ih cur (some seg.endT)]
      | some l =>
        rw [simpleLoop_cons_some, if_neg h1, List.filter_cons, if_pos hp]
        simp only [List.map_cons]
        rw [ih _ (some seg.endT)]

/-! ## C10 — the simple heuristic diarizer -/

/-- C10: in `_diarize_simple`, every retained segment is labelled
`SPEAKER_00` or `SPEAKER_01`; the first retained segment gets `SPEAKER_00`;
consecutive retained segments differ in speaker exactly when the later one
starts strictly more than `interruption_gap` after the earlier one ends;
and the retained segments are precisely the inputs with non-empty stripped
text, in order, with their own timestamps — so empty-text segments neither
appear nor affect the alternation or the gap computation. -/
theorem simple_heuristic_speakers (gap : ℚ) (ws : List WSeg)
    (out : List OutSeg) (h : diarizeSimple gap ws = some out) :
    (∀ o ∈ out, o.speaker = "SPEAKER_00" ∨ o.speaker = "SPEAKER_01") ∧
    (∀ (o0 : OutSeg) (rest : List OutSeg),
        out = o0 :: rest → o0.speaker = "SPEAKER_00") ∧
    List.Chain' (fun a b => (b.speaker ≠ a.speaker ↔ gap < b.startT - a.endT)) out ∧
    out.map (fun o => (o.startT, o.endT, o.text)) =
      (ws.filter (fun w => !(pyStripWs w.text).isEmpty)).map
        (fun w => (w.startT, w.endT, pyStripWs w.text)) := by
  have hout : out = simpleLoop gap "SPEAKER_00" none ws := by
    unfold diarizeSimple at h
    by_cases hws : ws = []
    · rw [if_pos hws] at h
      exact absurd h (by simp)
    · rw [if_neg hws] at h
      exact (Option.some.inj h).symm
  subst hout
  exact ⟨simpleLoop_labels gap ws "SPEAKER_00" none (Or.inl rfl),
         simpleLoop_none_first gap "SPEAKER_00" ws,
         simpleLoop_none_chain gap "SPEAKER_00" ws,
         simpleLoop_projection gap ws "SPEAKER_00" none⟩

/-- C10 (witness): the single-segment run retains it as `SPEAKER_00`. -/
theorem simple_heuristic_speakers_witness :
    (⟨0, 1, "hi".data, "SPEAKER_00"⟩ : OutSeg).speaker = "SPEAKER_00" :=
  (simple_heuristic_speakers 1 [⟨0, 1, "hi".data⟩]
      [⟨0, 1, "hi".data, "SPEAKER_00"⟩] rfl).2.1 _ _ rfl
